import Mathlib

/-!
# Verification of the Vendure documentation-level behaviours

Shallow embedding of the behaviours described in the repository:
the worker / job-queue subsystem, the email event handlers, the
collection filters, the shop-API authentication operations and the
admin-ui `usePageMetadata` React hook.

The file is laid out as definitions first, then the theorems.
-/

namespace Vendure

/-! ## Job queue subsystem

Modelled from the spec: the job-queue implementation itself
(`InMemoryJobQueueStrategy`, `SqlJobQueueStrategy`, the worker loop) is not
in the tree; only the guide `docs/guides/developer-guide/worker-job-queue`
describes it.  The server adds jobs to a queue; the worker acquires jobs
exclusively by polling the store; the `sql` strategy keeps pending jobs
across a server stop while the `inMemory` strategy loses them. -/

abbrev JobId := Nat

/-- State of one job queue: the jobs still pending in the backing store,
and the jobs the worker has already processed (in processing order). -/
structure QueueState where
  pending : List JobId
  processed : List JobId
deriving Repr, DecidableEq

/-- The two job-queue strategies described by the guide: the in-memory
store used when no strategy is defined, and the database-backed
`SqlJobQueueStrategy` configured by the `DefaultJobQueuePlugin`. -/
inductive JobQueueStrategy
  | inMemory
  | sql
deriving Repr, DecidableEq

/-- Which store backs each strategy: the `sql` strategy uses the database
as a queue, the in-memory strategy an in-memory store of the contents of
each queue. -/
inductive BackingStore
  | database
  | memory
deriving Repr, DecidableEq

def JobQueueStrategy.backingStore : JobQueueStrategy → BackingStore
  | .sql => .database
  | .inMemory => .memory

/-- Modelled from the spec: "If no strategy is defined, Vendure uses an
in-memory store of the contents of each queue." -/
def defaultStrategyWhenUnconfigured : JobQueueStrategy := .inMemory

/-- Events of the job-queue system: the server adds a job, the worker
acquires a pending job by a poll of the store, or the server process
stops and restarts.  There is no push-dispatch event: polling is the only
way a job reaches the worker. -/
inductive QueueEvent
  | addJob (j : JobId)
  | poll (j : JobId)
  | restart
deriving Repr, DecidableEq

def initialQueueState : QueueState := ⟨[], []⟩

/-- One step of the job-queue system under a given strategy.  A poll may
acquire any job pending in the store: neither the guide nor the strategy
interface constrains which pending job a poll returns. On restart the
`sql` strategy keeps the pending jobs (they are persisted in the
database); the `inMemory` strategy loses the entire queue. -/
inductive QueueStep : JobQueueStrategy → QueueState → QueueEvent → QueueState → Prop
  | add {strat : JobQueueStrategy} {p d : List JobId} {j : JobId} :
      QueueStep strat ⟨p, d⟩ (.addJob j) ⟨p ++ [j], d⟩
  | poll {strat : JobQueueStrategy} {p d : List JobId} {j : JobId} (h : j ∈ p) :
      QueueStep strat ⟨p, d⟩ (.poll j) ⟨p.erase j, d ++ [j]⟩
  | restartSql {p d : List JobId} :
      QueueStep .sql ⟨p, d⟩ .restart ⟨p, d⟩
  | restartInMemory {p d : List JobId} :
      QueueStep .inMemory ⟨p, d⟩ .restart ⟨[], d⟩

/-- Execution of a list of events from a state. -/
inductive QueueExec : JobQueueStrategy → QueueState → List QueueEvent → QueueState → Prop
  | nil {strat : JobQueueStrategy} {s : QueueState} : QueueExec strat s [] s
  | cons {strat : JobQueueStrategy} {s s' s'' : QueueState} {e : QueueEvent}
      {tr : List QueueEvent} :
      QueueStep strat s e s' → QueueExec strat s' tr s'' →
      QueueExec strat s (e :: tr) s''

/-- Modelled from the spec: "Each queue will (by default) query the
database every 200ms." -/
def sqlPollIntervalMs : Nat := 200

/-- Number of database polls per second that one queue performs. -/
def pollsPerSecondPerQueue : Nat := 1000 / sqlPollIntervalMs

/-- Steady-state database queries per second for `n` configured queues. -/
def sqlQueriesPerSecond (numQueues : Nat) : Nat :=
  pollsPerSecondPerQueue * numQueues

/-! ## Email plugin: the orderConfirmationHandler

Embedding of the simplified `orderConfirmationHandler` shown in
`docs/guides/core-concepts/email/index.mdx`: an `EmailEventListener` on
`OrderStateTransitionEvent` with a `.filter`, a `.loadData`, then
`.setRecipient`, `.setFrom`, `.setSubject` and `.setTemplateVars`. -/

structure Customer where
  emailAddress : String
deriving Repr, DecidableEq

structure ShippingLine where
  shippingMethod : String
deriving Repr, DecidableEq

structure OrderLine where
  featuredAssetUrl : String
deriving Repr, DecidableEq

structure Order where
  code : String
  customer : Option Customer
  lines : List OrderLine
  shippingLines : List ShippingLine
deriving Repr, DecidableEq

structure RequestContext where
  assetOrigin : String
deriving Repr, DecidableEq

structure OrderStateTransitionEvent where
  ctx : RequestContext
  fromState : String
  toState : String
  order : Order
deriving Repr, DecidableEq

/-- Modelled from the spec: `transformOrderLineAssetUrls` mutates the
Order so that product images are correctly displayed in the email, i.e.
rewrites each order line's asset url against the request's asset origin
(its implementation is not in the tree). -/
def transformOrderLineAssetUrls (ctx : RequestContext) (o : Order) : Order :=
  { o with lines := o.lines.map fun l =>
      { l with featuredAssetUrl := ctx.assetOrigin ++ l.featuredAssetUrl } }

/-- Modelled from the spec: `hydrateShippingLines` fetches the order's
shipping line data from the database (its implementation is not in the
tree). -/
def hydrateShippingLines (o : Order) : List ShippingLine :=
  o.shippingLines

/-- Template variables made available by `setTemplateVars`. -/
structure OrderTemplateVars where
  order : Order
  shippingLines : List ShippingLine
deriving Repr, DecidableEq

/-- The email produced by the handler. -/
structure EmailDetails where
  templateCode : String
  recipient : String
  fromLine : String
  subject : String
  vars : OrderTemplateVars
deriving Repr, DecidableEq

/-- The `orderConfirmationHandler` pipeline.  Returns the email (none
when the filter rejects the event) together with the pipeline steps run,
in order.  The filter requires `toState === 'PaymentSettled'` and a
customer on the order; `loadData` transforms the order line asset urls
and hydrates the shipping lines; the recipient is the customer's email
address; the template variables are the order and the loaded shipping
lines. -/
def orderConfirmationHandler (e : OrderStateTransitionEvent) :
    Option EmailDetails × List String :=
  if e.toState == "PaymentSettled" && e.order.customer.isSome then
    let o := transformOrderLineAssetUrls e.ctx e.order
    let shippingLines := hydrateShippingLines o
    let recipient := match e.order.customer with
      | some c => c.emailAddress
      | none => ""
    (some {
      templateCode := "order-confirmation"
      recipient := recipient
      fromLine := "\x7b\x7b fromAddress \x7d\x7d"
      subject := "Order confirmation for #\x7b\x7b order.code \x7d\x7d"
      vars := ⟨o, shippingLines⟩ },
      ["filter", "loadData", "setRecipient", "setFrom", "setSubject",
        "setTemplateVars"])
  else (none, ["filter"])

/-! ## Collections: the skuCollectionFilter query builder

Embedding of the `skuCollectionFilter` of
`docs/guides/core-concepts/collections/index.mdx`: a TypeORM
`SelectQueryBuilder` is a connection plus query parts, and `andWhere`
appends one conjunct to the WHERE clause. -/

structure ConnectionOptions where
  type : String
deriving Repr, DecidableEq

structure Connection where
  options : ConnectionOptions
deriving Repr, DecidableEq

/-- One WHERE conjunct: its SQL text and its named parameters. -/
structure WhereConjunct where
  clause : String
  params : List (String × String)
deriving Repr, DecidableEq

/-- The parts of a TypeORM `SelectQueryBuilder` relevant here: the
connection, the WHERE conjuncts, and the remaining parts of the query
(select, from, joins, order-by), kept abstract as strings. -/
structure SelectQueryBuilder where
  connection : Connection
  selectClause : String
  fromClause : String
  joinClauses : List String
  whereConjuncts : List WhereConjunct
  orderByClause : String
deriving Repr, DecidableEq

/-- TypeORM's `andWhere`: appends one conjunct to the WHERE clause and
changes nothing else. -/
def SelectQueryBuilder.andWhere (qb : SelectQueryBuilder) (clause : String)
    (params : List (String × String)) : SelectQueryBuilder :=
  { qb with whereConjuncts := qb.whereConjuncts ++ [⟨clause, params⟩] }

structure SkuFilterArgs where
  sku : String
deriving Repr, DecidableEq

/-- The `apply` function of the `skuCollectionFilter`: chooses `ILIKE`
for a postgres connection and `LIKE` otherwise, then appends the sku
conjunct via `andWhere` with the parameter `%args.sku%`. -/
def skuCollectionFilterApply (qb : SelectQueryBuilder)
    (args : SkuFilterArgs) : SelectQueryBuilder :=
  let like := if qb.connection.options.type == "postgres"
    then "ILIKE" else "LIKE"
  qb.andWhere ("productVariant.sku " ++ like ++ " :sku")
    [("sku", "%" ++ args.sku ++ "%")]

/-! ## Collections: filter semantics and filter inheritance

Modelled from the spec: a collection filter is a piece of logic deciding
whether a product variant belongs to the collection; with filter
inheritance enabled a child collection combines its own filters with the
parent's filters (`docs/guides/core-concepts/collections/index.mdx`). -/

structure ProductVariant where
  name : String
  sku : String
  facetValues : List String
deriving Repr, DecidableEq

/-- The collection filters described by the guide, as membership
predicates: filter by facet values, by product variant name, and the
custom sku filter. -/
inductive CatalogCollectionFilter
  | facetValueFilter (required : List String)
  | variantNameFilter (part : String)
  | variantSkuFilter (part : String)
deriving Repr, DecidableEq

/-- Whether `sub` occurs as a substring of `s`. -/
def containsSubstring (s sub : String) : Bool :=
  (s.splitOn sub).length > 1 || sub == ""

def applyCatalogFilter : CatalogCollectionFilter → ProductVariant → Bool
  | .facetValueFilter required, v => required.all fun fv => v.facetValues.contains fv
  | .variantNameFilter part, v => containsSubstring v.name part
  | .variantSkuFilter part, v => containsSubstring v.sku part

/-- Modelled from the spec: with filter inheritance enabled the child
collection combines its own filters with the parent's filters; with it
disabled only the child's own filters apply. -/
def effectiveFilters (parentFilters ownFilters : List CatalogCollectionFilter)
    (inheritFilters : Bool) : List CatalogCollectionFilter :=
  if inheritFilters then parentFilters ++ ownFilters else ownFilters

/-- Re-evaluation of a collection's contents: the variants of the catalog
that satisfy every filter. -/
def collectionContents (catalog : List ProductVariant)
    (filters : List CatalogCollectionFilter) : List ProductVariant :=
  catalog.filter fun v => filters.all fun f => applyCatalogFilter f v

/-! ## Shop API authentication

Embedding of the schema fragment
`union NativeAuthenticationResult = CurrentUser | InvalidCredentialsError
| NativeAuthStrategyError` and `union AuthenticationResult = CurrentUser
| InvalidCredentialsError`, with the `login`, `authenticate` mutations. -/

structure CurrentUser where
  id : String
  identifier : String
deriving Repr, DecidableEq

/-- The GraphQL result union of the `login` mutation. -/
inductive NativeAuthenticationResult
  | currentUser (user : CurrentUser)
  | invalidCredentialsError
  | nativeAuthStrategyError
deriving Repr, DecidableEq

/-- The GraphQL result union of the `authenticate` mutation. -/
inductive AuthenticationResult
  | currentUser (user : CurrentUser)
  | invalidCredentialsError
deriving Repr, DecidableEq

/-- The `errorCode` and `message` fields every ErrorResult member of the
unions carries; `none` on the success member. -/
def NativeAuthenticationResult.errorInfo :
    NativeAuthenticationResult → Option (String × String)
  | .currentUser _ => none
  | .invalidCredentialsError =>
      some ("INVALID_CREDENTIALS_ERROR", "The provided credentials are invalid")
  | .nativeAuthStrategyError =>
      some ("NATIVE_AUTH_STRATEGY_ERROR",
        "The NativeAuthenticationStrategy is not configured")

def AuthenticationResult.errorInfo :
    AuthenticationResult → Option (String × String)
  | .currentUser _ => none
  | .invalidCredentialsError =>
      some ("INVALID_CREDENTIALS_ERROR", "The provided credentials are invalid")

structure UserRecord where
  id : String
  identifier : String
  password : String
deriving Repr, DecidableEq

/-- Modelled from the spec: the native authentication strategy checks the
supplied username and password against the registered users and yields
the current user on a match (the resolver implementation is not in the
tree). -/
def nativeAuthenticate (users : List UserRecord)
    (username password : String) : Option CurrentUser :=
  match users.find? fun u => u.identifier == username && u.password == password with
  | some u => some ⟨u.id, u.identifier⟩
  | none => none

/-- Modelled from the spec: the `login` mutation resolver.  Every failure
is returned as a member of the result union, never raised: a missing
native strategy yields `NativeAuthStrategyError`, bad credentials yield
`InvalidCredentialsError`. -/
def loginMutation (nativeStrategyConfigured : Bool) (users : List UserRecord)
    (username password : String) : NativeAuthenticationResult :=
  if !nativeStrategyConfigured then .nativeAuthStrategyError
  else match nativeAuthenticate users username password with
    | some cu => .currentUser cu
    | none => .invalidCredentialsError

/-- Modelled from the spec: the `authenticate` mutation resolver with a
native-strategy input; bad credentials yield `InvalidCredentialsError`
as a member of the result union. -/
def authenticateMutation (users : List UserRecord)
    (username password : String) : AuthenticationResult :=
  match nativeAuthenticate users username password with
  | some cu => .currentUser cu
  | none => .invalidCredentialsError

/-! ## Session cookies for login / authenticate

Modelled from the spec: "The `rememberMe` option applies when using
cookie-based sessions, and if `true` it will set the maxAge of the
session cookie to 1 year", and "login ... is an alias for
authenticate({ native: { ... }})" (schema doc comment). -/

inductive CookieMaxAge
  | sessionDefault
  | oneYear
deriving Repr, DecidableEq

/-- The `AuthenticationInput` of the `authenticate` mutation, populated
at run-time; the relevant member is the native strategy input. -/
inductive AuthenticationInputModel
  | native (username password : String)
deriving Repr, DecidableEq

/-- Modelled from the spec: the `authenticate` resolver under
cookie-based sessions: on success a session is created whose cookie
maxAge is 1 year when `rememberMe` is true and the default otherwise. -/
def authenticateResolver (users : List UserRecord)
    (input : AuthenticationInputModel) (rememberMe : Bool) :
    Option CurrentUser × CookieMaxAge :=
  match input with
  | .native username password =>
    match nativeAuthenticate users username password with
    | some cu => (some cu, if rememberMe then .oneYear else .sessionDefault)
    | none => (none, .sessionDefault)

/-- The `login` resolver: an alias for `authenticate` with the native
strategy input. -/
def loginResolver (users : List UserRecord) (username password : String)
    (rememberMe : Bool) : Option CurrentUser × CookieMaxAge :=
  authenticateResolver users (.native username password) rememberMe

/-! ## Admin UI: the usePageMetadata React hook

Embedding of
`packages/admin-ui/src/lib/react/src/hooks/use-page-metadata.ts`: the
hook reads the `HostedComponentContext` and returns `setTitle` and
`setBreadcrumb`, which push onto the context's `title$` and
`breadcrumb$` subjects.  The streams are modelled as the lists of values
emitted so far; a missing context (no provider) makes the returned
functions fail, since the code dereferences the context unchecked. -/

structure BreadcrumbEntry where
  label : String
  link : List String
deriving Repr, DecidableEq

/-- The `BreadcrumbValue` pushed onto `breadcrumb$`. -/
abbrev BreadcrumbValue := List BreadcrumbEntry

/-- The hosting context: the emissions of `title$` and `breadcrumb$`. -/
structure HostedReactComponentContext where
  titleEmissions : List String
  breadcrumbEmissions : List BreadcrumbValue
deriving Repr, DecidableEq

/-- The `setTitle` function returned by the hook: `context.title$.next(newTitle)`.
With no provider the context is null and the call fails. -/
def setTitle (context : Option HostedReactComponentContext)
    (newTitle : String) : Except String HostedReactComponentContext :=
  match context with
  | none => .error "TypeError: cannot read properties of null"
  | some c => .ok { c with titleEmissions := c.titleEmissions ++ [newTitle] }

/-- The `setBreadcrumb` function returned by the hook:
`context.breadcrumb$.next(newValue)`. -/
def setBreadcrumb (context : Option HostedReactComponentContext)
    (newValue : BreadcrumbValue) : Except String HostedReactComponentContext :=
  match context with
  | none => .error "TypeError: cannot read properties of null"
  | some c => .ok
      { c with breadcrumbEmissions := c.breadcrumbEmissions ++ [newValue] }

/-- The pair of functions the hook returns. -/
structure PageMetadataHandle where
  setTitleFn : String → Except String HostedReactComponentContext
  setBreadcrumbFn : BreadcrumbValue → Except String HostedReactComponentContext

/-- The hook `usePageMetadata`: reads the `HostedComponentContext` and returns
`setTitle` and `setBreadcrumb` closed over it. -/
def usePageMetadata (context : Option HostedReactComponentContext) :
    PageMetadataHandle :=
  ⟨setTitle context, setBreadcrumb context⟩

/-! ## Theorems -/

/-- Along any step, a job enters the processed list only through a poll
of the pending store. -/
theorem processed_step_cases {strat : JobQueueStrategy} {s s' : QueueState}
    {e : QueueEvent} {j : JobId} (hstep : QueueStep strat s e s')
    (hj : j ∈ s'.processed) : j ∈ s.processed ∨ e = .poll j := by
  cases hstep with
  | add => exact Or.inl hj
  | poll h =>
      rcases List.mem_append.mp hj with h1 | h2
      · exact Or.inl h1
      · simp only [List.mem_singleton] at h2
        exact Or.inr (by rw [h2])
  | restartSql => exact Or.inl hj
  | restartInMemory => exact Or.inl hj

/-- Along any execution, a job in the final processed list was already
processed at the start or was acquired by a poll event of the trace. -/
theorem processed_exec_cases {strat : JobQueueStrategy} {s s' : QueueState}
    {tr : List QueueEvent} {j : JobId} (hexec : QueueExec strat s tr s')
    (hj : j ∈ s'.processed) : j ∈ s.processed ∨ QueueEvent.poll j ∈ tr := by
  induction hexec with
  | nil => exact Or.inl hj
  | cons hstep _ ih =>
      rcases ih hj with h1 | h2
      · rcases processed_step_cases hstep h1 with h3 | h4
        · exact Or.inl h3
        · exact Or.inr (by rw [h4]; exact List.mem_cons_self _ _)
      · exact Or.inr (List.mem_cons_of_mem _ h2)

/-- A job absent from both the pending store and the processed history is
still absent from both after any step that is not an add of that job. -/
theorem lost_job_step {t : JobQueueStrategy} {s s' : QueueState}
    {e : QueueEvent} {j : JobId} (hstep : QueueStep t s e s')
    (hp : j ∉ s.pending) (hd : j ∉ s.processed)
    (ha : e ≠ QueueEvent.addJob j) : j ∉ s'.pending ∧ j ∉ s'.processed := by
  cases hstep with
  | @add t p d j' =>
      refine ⟨?_, hd⟩
      intro hmem
      rcases List.mem_append.mp hmem with h1 | h2
      · exact hp h1
      · simp only [List.mem_singleton] at h2
        exact ha (by rw [h2])
  | @poll t p d j' hmem =>
      have hne : j' ≠ j := fun hEq => hp (hEq ▸ hmem)
      refine ⟨?_, ?_⟩
      · intro hmem2
        exact hp (List.mem_of_mem_erase hmem2)
      · intro hmem2
        rcases List.mem_append.mp hmem2 with h1 | h2
        · exact hd h1
        · simp only [List.mem_singleton] at h2
          exact hne h2.symm
  | restartSql => exact ⟨hp, hd⟩
  | restartInMemory => exact ⟨List.not_mem_nil j, hd⟩

/-- A job absent from both the pending store and the processed history,
and never re-added by the server, stays absent from both. -/
theorem lost_job_invariant {t : JobQueueStrategy} {s s' : QueueState}
    {tr : List QueueEvent} {j : JobId} (hexec : QueueExec t s tr s')
    (hp : j ∉ s.pending) (hd : j ∉ s.processed)
    (ha : QueueEvent.addJob j ∉ tr) : j ∉ s'.pending ∧ j ∉ s'.processed := by
  induction hexec with
  | nil => exact ⟨hp, hd⟩
  | @cons s1 s2 s3 ev tr' hstep hrest ih =>
      have hatl : QueueEvent.addJob j ∉ tr' := fun hmem =>
        ha (List.mem_cons_of_mem _ hmem)
      have hne : ev ≠ QueueEvent.addJob j := by
        intro hEq
        exact ha (by rw [hEq]; exact List.mem_cons_self _ _)
      have hmid := lost_job_step hstep hp hd hne
      exact ih hmid.1 hmid.2 hatl

/-- C1 (counterexample): when the operator has not configured any
`JobQueueStrategy`, the resolved strategy is the in-memory one, whose
backing store is not the database — so the worker does not obtain jobs by
polling the database in that configuration. -/
theorem unconfigured_default_is_not_database_polling :
    defaultStrategyWhenUnconfigured = JobQueueStrategy.inMemory ∧
    JobQueueStrategy.backingStore defaultStrategyWhenUnconfigured ≠
      BackingStore.database := by
  exact ⟨rfl, by decide⟩

/-- C1 (amended): under the standard installation's default
`SqlJobQueueStrategy` (configured by the `DefaultJobQueuePlugin`), the
backing store is the database and the worker obtains every job by
polling: every job processed along any execution was acquired by a poll
event of the trace (there is no push dispatch), and any job still pending
can be acquired by one further poll. -/
theorem sql_worker_acquires_only_by_polling (tr : List QueueEvent)
    (s : QueueState) (h : QueueExec .sql initialQueueState tr s) :
    JobQueueStrategy.backingStore .sql = BackingStore.database ∧
    (∀ j, j ∈ s.processed → QueueEvent.poll j ∈ tr) ∧
    (∀ j, j ∈ s.pending →
      QueueExec .sql s [QueueEvent.poll j]
        ⟨s.pending.erase j, s.processed ++ [j]⟩) := by
  refine ⟨rfl, ?_, ?_⟩
  · intro j hj
    rcases processed_exec_cases h hj with h1 | h2
    · exact absurd h1 (List.not_mem_nil j)
    · exact h2
  · intro j hj
    exact QueueExec.cons (QueueStep.poll hj) QueueExec.nil

/-- Witness for C1's amended theorem at the concrete trace that adds job
0 and polls it. -/
theorem sql_worker_acquires_only_by_polling_witness :
    QueueExec .sql initialQueueState
      [QueueEvent.addJob 0, QueueEvent.poll 0] ⟨[], [0]⟩ ∧
    (JobQueueStrategy.backingStore .sql = BackingStore.database ∧
      (∀ j, j ∈ (⟨[], [0]⟩ : QueueState).processed →
        QueueEvent.poll j ∈ [QueueEvent.addJob 0, QueueEvent.poll 0]) ∧
      (∀ j, j ∈ (⟨[], [0]⟩ : QueueState).pending →
        QueueExec .sql ⟨[], [0]⟩ [QueueEvent.poll j]
          ⟨(⟨[], [0]⟩ : QueueState).pending.erase j,
            (⟨[], [0]⟩ : QueueState).processed ++ [j]⟩)) := by
  have hexec : QueueExec .sql initialQueueState
      [QueueEvent.addJob 0, QueueEvent.poll 0] ⟨[], [0]⟩ :=
    QueueExec.cons QueueStep.add
      (QueueExec.cons (QueueStep.poll (by simp)) QueueExec.nil)
  exact ⟨hexec, sql_worker_acquires_only_by_polling _ _ hexec⟩

/-- C2: each queue under the `SqlJobQueueStrategy` polls the database
every 200 ms, so `n` queues produce `5 * n` queries per second, and 10
queues a constant 50 queries per second. -/
theorem sql_polling_queries_per_second (n : Nat) :
    sqlQueriesPerSecond n = 5 * n ∧ sqlQueriesPerSecond 10 = 50 := by
  constructor <;>
    simp [sqlQueriesPerSecond, pollsPerSecondPerQueue, sqlPollIntervalMs]

/-- C3: the job-queue model imposes no ordering contract: for every pair
of distinct jobs added to a queue in the order `a` then `b`, there is a
valid execution processing `a` before `b` and a valid execution
processing `b` before `a`. -/
theorem queue_no_ordering_guarantee (a b : JobId) (h : a ≠ b) :
    ∃ s1 s2 : QueueState,
      QueueExec .sql initialQueueState
        [QueueEvent.addJob a, QueueEvent.addJob b,
          QueueEvent.poll a, QueueEvent.poll b] s1 ∧
      QueueExec .sql initialQueueState
        [QueueEvent.addJob a, QueueEvent.addJob b,
          QueueEvent.poll b, QueueEvent.poll a] s2 ∧
      s1.processed = [a, b] ∧ s2.processed = [b, a] := by
  refine ⟨⟨[], [a, b]⟩, ⟨[], [b, a]⟩, ?_, ?_, rfl, rfl⟩
  · have e3 : QueueStep .sql ⟨[a, b], []⟩ (QueueEvent.poll a) ⟨[b], [a]⟩ := by
      have h3 := @QueueStep.poll .sql [a, b] [] a (by simp)
      rwa [List.erase_cons_head] at h3
    have e4 : QueueStep .sql ⟨[b], [a]⟩ (QueueEvent.poll b) ⟨[], [a, b]⟩ := by
      have h4 := @QueueStep.poll .sql [b] [a] b (by simp)
      rwa [List.erase_cons_head] at h4
    exact QueueExec.cons QueueStep.add (QueueExec.cons QueueStep.add
      (QueueExec.cons e3 (QueueExec.cons e4 QueueExec.nil)))
  · have e3 : QueueStep .sql ⟨[a, b], []⟩ (QueueEvent.poll b) ⟨[a], [b]⟩ := by
      have h3 := @QueueStep.poll .sql [a, b] [] b (by simp)
      have herase : ([a, b] : List JobId).erase b = [a] := by
        have hne : (a == b) = false := by
          simp only [beq_eq_false_iff_ne, ne_eq]
          exact h
        simp [List.erase_cons, hne]
      rwa [herase] at h3
    have e4 : QueueStep .sql ⟨[a], [b]⟩ (QueueEvent.poll a) ⟨[], [b, a]⟩ := by
      have h4 := @QueueStep.poll .sql [a] [b] a (by simp)
      rwa [List.erase_cons_head] at h4
    exact QueueExec.cons QueueStep.add (QueueExec.cons QueueStep.add
      (QueueExec.cons e3 (QueueExec.cons e4 QueueExec.nil)))

/-- Witness for C3 at the distinct jobs 0 and 1. -/
theorem queue_no_ordering_guarantee_witness :
    (0 : JobId) ≠ 1 ∧
    ∃ s1 s2 : QueueState,
      QueueExec .sql initialQueueState
        [QueueEvent.addJob 0, QueueEvent.addJob 1,
          QueueEvent.poll 0, QueueEvent.poll 1] s1 ∧
      QueueExec .sql initialQueueState
        [QueueEvent.addJob 0, QueueEvent.addJob 1,
          QueueEvent.poll 1, QueueEvent.poll 0] s2 ∧
      s1.processed = [0, 1] ∧ s2.processed = [1, 0] :=
  ⟨by decide, queue_no_ordering_guarantee 0 1 (by decide)⟩

/-- C4: job persistence depends on the strategy.  Under `sql`, a restart
preserves the pending jobs and any job pending at the stop can be
processed afterwards; under `inMemory`, the restart empties the queue and
a job pending at shutdown (and not re-added later) is never processed. -/
theorem persistence_depends_on_strategy (p d : List JobId) (j : JobId)
    (hp : j ∈ p) (hd : j ∉ d) :
    (QueueStep .sql ⟨p, d⟩ QueueEvent.restart ⟨p, d⟩ ∧
      ∃ s' : QueueState,
        QueueExec .sql ⟨p, d⟩ [QueueEvent.restart, QueueEvent.poll j] s' ∧
        j ∈ s'.processed) ∧
    (QueueStep .inMemory ⟨p, d⟩ QueueEvent.restart ⟨[], d⟩ ∧
      ∀ tr s', QueueExec .inMemory ⟨[], d⟩ tr s' →
        QueueEvent.addJob j ∉ tr → j ∉ s'.processed) := by
  constructor
  · refine ⟨QueueStep.restartSql, ⟨p.erase j, d ++ [j]⟩, ?_, ?_⟩
    · exact QueueExec.cons QueueStep.restartSql
        (QueueExec.cons (QueueStep.poll hp) QueueExec.nil)
    · simp
  · refine ⟨QueueStep.restartInMemory, ?_⟩
    intro tr s' hexec ha
    exact (lost_job_invariant hexec (List.not_mem_nil j) hd ha).2

/-- Witness for C4 with job 7 pending and nothing processed. -/
theorem persistence_depends_on_strategy_witness :
    (7 ∈ ([7] : List JobId) ∧ 7 ∉ ([] : List JobId)) ∧
    ((QueueStep .sql ⟨[7], []⟩ QueueEvent.restart ⟨[7], []⟩ ∧
      ∃ s' : QueueState,
        QueueExec .sql ⟨[7], []⟩ [QueueEvent.restart, QueueEvent.poll 7] s' ∧
        7 ∈ s'.processed) ∧
    (QueueStep .inMemory ⟨[7], []⟩ QueueEvent.restart ⟨[], []⟩ ∧
      ∀ tr s', QueueExec .inMemory ⟨[], []⟩ tr s' →
        QueueEvent.addJob 7 ∉ tr → 7 ∉ s'.processed)) :=
  ⟨⟨by decide, by decide⟩,
    persistence_depends_on_strategy [7] [] 7 (by decide) (by decide)⟩

/-- C5: the orderConfirmationHandler sends an email iff the event's
`toState` is `'PaymentSettled'` and the order has a customer; the
recipient is the customer's email address; and the `loadData` step runs
strictly before `setTemplateVars` in the pipeline. -/
theorem order_confirmation_handler_spec (e : OrderStateTransitionEvent) :
    ((orderConfirmationHandler e).1.isSome ↔
      (e.toState = "PaymentSettled" ∧ e.order.customer.isSome = true)) ∧
    (∀ c m, e.order.customer = some c →
      (orderConfirmationHandler e).1 = some m →
      m.recipient = c.emailAddress) ∧
    ((orderConfirmationHandler e).1.isSome →
      (orderConfirmationHandler e).2.indexOf "loadData" <
        (orderConfirmationHandler e).2.indexOf "setTemplateVars") := by
  refine ⟨?_, ?_, ?_⟩
  · unfold orderConfirmationHandler
    by_cases hts : e.toState = "PaymentSettled" <;>
      by_cases hcu : e.order.customer.isSome = true <;>
        simp [hts, hcu]
  · intro c m hc hm
    have hcu : e.order.customer.isSome = true := by rw [hc]; rfl
    unfold orderConfirmationHandler at hm
    by_cases hts : e.toState = "PaymentSettled"
    · simp [hts, hcu, hc] at hm
      rw [← hm]
    · simp [hts] at hm
  · intro hs
    unfold orderConfirmationHandler at hs ⊢
    by_cases hts : e.toState = "PaymentSettled" <;>
      by_cases hcu : e.order.customer.isSome = true <;>
        simp [hts, hcu] at hs ⊢

/-- C6: `skuCollectionFilterApply` appends exactly one WHERE conjunct —
matching `productVariant.sku` against `%sku%` with `ILIKE` on postgres
and `LIKE` otherwise — and leaves every other part of the query builder
unchanged. -/
theorem sku_collection_filter_apply_spec (qb : SelectQueryBuilder)
    (args : SkuFilterArgs) :
    (skuCollectionFilterApply qb args).whereConjuncts =
      qb.whereConjuncts ++
        [⟨"productVariant.sku " ++
            (if qb.connection.options.type = "postgres"
              then "ILIKE" else "LIKE") ++ " :sku",
          [("sku", "%" ++ args.sku ++ "%")]⟩] ∧
    (skuCollectionFilterApply qb args).connection = qb.connection ∧
    (skuCollectionFilterApply qb args).selectClause = qb.selectClause ∧
    (skuCollectionFilterApply qb args).fromClause = qb.fromClause ∧
    (skuCollectionFilterApply qb args).joinClauses = qb.joinClauses ∧
    (skuCollectionFilterApply qb args).orderByClause = qb.orderByClause := by
  by_cases hpg : qb.connection.options.type = "postgres" <;>
    simp [skuCollectionFilterApply, SelectQueryBuilder.andWhere, hpg]

/-- C7: the shop-API authentication operations surface failures as
values of the GraphQL result unions: `login` and `authenticate` always
return a member of their union, and every member other than
`CurrentUser` carries a non-empty `errorCode` and `message`. -/
theorem auth_failures_as_error_results (cfg : Bool)
    (users : List UserRecord) (u p : String) :
    ((∃ cu, loginMutation cfg users u p = .currentUser cu) ∨
      (∃ code msg, (loginMutation cfg users u p).errorInfo = some (code, msg) ∧
        code ≠ "" ∧ msg ≠ "")) ∧
    ((∃ cu, authenticateMutation users u p = .currentUser cu) ∨
      (∃ code msg, (authenticateMutation users u p).errorInfo = some (code, msg) ∧
        code ≠ "" ∧ msg ≠ "")) ∧
    (∀ r : NativeAuthenticationResult, r.errorInfo = none →
      ∃ cu, r = .currentUser cu) ∧
    (∀ r : AuthenticationResult, r.errorInfo = none →
      ∃ cu, r = .currentUser cu) := by
  refine ⟨?_, ?_, ?_, ?_⟩
  · cases hr : loginMutation cfg users u p with
    | currentUser cu => exact Or.inl ⟨cu, rfl⟩
    | invalidCredentialsError =>
        exact Or.inr ⟨"INVALID_CREDENTIALS_ERROR",
          "The provided credentials are invalid", rfl, by decide, by decide⟩
    | nativeAuthStrategyError =>
        exact Or.inr ⟨"NATIVE_AUTH_STRATEGY_ERROR",
          "The NativeAuthenticationStrategy is not configured", rfl,
          by decide, by decide⟩
  · cases hr : authenticateMutation users u p with
    | currentUser cu => exact Or.inl ⟨cu, rfl⟩
    | invalidCredentialsError =>
        exact Or.inr ⟨"INVALID_CREDENTIALS_ERROR",
          "The provided credentials are invalid", rfl, by decide, by decide⟩
  · intro r hr
    cases r with
    | currentUser cu => exact ⟨cu, rfl⟩
    | invalidCredentialsError => exact absurd hr (by simp [NativeAuthenticationResult.errorInfo])
    | nativeAuthStrategyError => exact absurd hr (by simp [NativeAuthenticationResult.errorInfo])
  · intro r hr
    cases r with
    | currentUser cu => exact ⟨cu, rfl⟩
    | invalidCredentialsError => exact absurd hr (by simp [AuthenticationResult.errorInfo])

/-- C8: with filter inheritance enabled, every product variant of the
child collection (whose membership predicate conjoins the parent's
filters with its own) is contained in the parent collection, for every
re-evaluation of the contents over any catalog. -/
theorem inherited_child_collection_subset (catalog : List ProductVariant)
    (parentFilters ownFilters : List CatalogCollectionFilter)
    (v : ProductVariant)
    (hv : v ∈ collectionContents catalog
      (effectiveFilters parentFilters ownFilters true)) :
    v ∈ collectionContents catalog parentFilters := by
  have heff : effectiveFilters parentFilters ownFilters true =
      parentFilters ++ ownFilters := rfl
  rw [heff] at hv
  unfold collectionContents at hv ⊢
  rw [List.mem_filter] at hv ⊢
  refine ⟨hv.1, ?_⟩
  have h2 := hv.2
  rw [List.all_append, Bool.and_eq_true] at h2
  exact h2.1

/-- Witness for C8: a variant with the clothing, mens and casual facet
values lies in the inheriting child collection and in the parent. -/
theorem inherited_child_collection_subset_witness :
    (⟨"Shirt", "S1", ["clothing", "mens", "casual"]⟩ : ProductVariant) ∈
      collectionContents
        [⟨"Shirt", "S1", ["clothing", "mens", "casual"]⟩]
        (effectiveFilters
          ([CatalogCollectionFilter.facetValueFilter ["clothing", "mens"]])
          ([CatalogCollectionFilter.facetValueFilter ["casual"]]) true) ∧
    (⟨"Shirt", "S1", ["clothing", "mens", "casual"]⟩ : ProductVariant) ∈
      collectionContents
        [⟨"Shirt", "S1", ["clothing", "mens", "casual"]⟩]
        ([CatalogCollectionFilter.facetValueFilter ["clothing", "mens"]]) :=
  ⟨by decide,
    inherited_child_collection_subset
      [⟨"Shirt", "S1", ["clothing", "mens", "casual"]⟩]
      [CatalogCollectionFilter.facetValueFilter ["clothing", "mens"]]
      [CatalogCollectionFilter.facetValueFilter ["casual"]]
      ⟨"Shirt", "S1", ["clothing", "mens", "casual"]⟩ (by decide)⟩

/-- C9: under cookie-based sessions, a successful login with
`rememberMe = true` creates a session whose cookie maxAge is 1 year, and
`login` is an alias for `authenticate` with the native strategy input. -/
theorem login_remember_me_cookie (users : List UserRecord)
    (u p : String) (cu : CurrentUser)
    (h : nativeAuthenticate users u p = some cu) :
    (loginResolver users u p true).2 = CookieMaxAge.oneYear ∧
    (∀ r : Bool, loginResolver users u p r =
      authenticateResolver users (.native u p) r) := by
  constructor
  · simp [loginResolver, authenticateResolver, h]
  · intro r
    rfl

/-- Witness for C9 at a one-user store with valid credentials. -/
theorem login_remember_me_cookie_witness :
    nativeAuthenticate [⟨"1", "alice", "secret"⟩] "alice" "secret" =
      some ⟨"1", "alice"⟩ ∧
    ((loginResolver [⟨"1", "alice", "secret"⟩] "alice" "secret" true).2 =
      CookieMaxAge.oneYear ∧
    (∀ r : Bool, loginResolver [⟨"1", "alice", "secret"⟩] "alice" "secret" r =
      authenticateResolver [⟨"1", "alice", "secret"⟩]
        (.native "alice" "secret") r)) :=
  ⟨by rfl, login_remember_me_cookie _ _ _ _ (by rfl)⟩

/-- C10: `setTitle` returned by `usePageMetadata` emits exactly the
given title on `title$` and leaves `breadcrumb$` unchanged;
`setBreadcrumb` emits exactly the given value on `breadcrumb$` and
leaves `title$` unchanged; with no `HostedComponentContext` both fail. -/
theorem use_page_metadata_spec (c : HostedReactComponentContext)
    (t : String) (b : BreadcrumbValue) :
    ((usePageMetadata (some c)).setTitleFn t =
      .ok { c with titleEmissions := c.titleEmissions ++ [t] }) ∧
    (∀ c', (usePageMetadata (some c)).setTitleFn t = .ok c' →
      c'.breadcrumbEmissions = c.breadcrumbEmissions) ∧
    ((usePageMetadata (some c)).setBreadcrumbFn b =
      .ok { c with breadcrumbEmissions := c.breadcrumbEmissions ++ [b] }) ∧
    (∀ c', (usePageMetadata (some c)).setBreadcrumbFn b = .ok c' →
      c'.titleEmissions = c.titleEmissions) ∧
    (∃ msg, (usePageMetadata none).setTitleFn t = .error msg) ∧
    (∃ msg, (usePageMetadata none).setBreadcrumbFn b = .error msg) := by
  refine ⟨rfl, ?_, rfl, ?_, ⟨_, rfl⟩, ⟨_, rfl⟩⟩
  · intro c' h
    simp only [usePageMetadata, setTitle, Except.ok.injEq] at h
    rw [← h]
  · intro c' h
    simp only [usePageMetadata, setBreadcrumb, Except.ok.injEq] at h
    rw [← h]

end Vendure
